import Mathlib

/-!
# Verification of the Bucket progress-event simulator

This file is a shallow embedding of the two progress-simulation artifacts of
the repository:

* `ProgressEventGenerator` (with its helpers `calculateOverallProgress` and
  `generateExpectedProgressEvents`) from
  `tests/e2e/utils/progress-event-generator.ts`, and
* the `move_files` handler of the Tauri IPC mock from
  `tests/e2e/fixtures/tauri-e2e-mocks.ts`.

Modelling conventions:

* JavaScript numbers are modelled as exact rationals (`ℚ`).  All quantities
  appearing in the progress formulas are small integers and small fractions,
  and the code's own tolerance statements (±1) are comfortably satisfied by
  the exact values.
* Wall-clock timestamps (`Date.now()`) are not modelled; the deterministic
  timestamp accumulation of `generateExpectedProgressEvents` is modelled
  exactly.
* Both simulation loops run on the single-threaded JS event loop and only
  yield control at `await` points (the `sleep`/`setTimeout` suspensions).
  The externally-settable cancellation flag (`this.aborted` resp.
  `window.__E2E_CANCELLED__`) can therefore only change value across a
  suspension.  We model a run schedule by `t : Option ℕ`: `some t` means the
  flag becomes true during the `t`-th suspension of the run (so every read
  taken after `t` suspensions have completed sees `true`), and `none` means
  the flag is never set during the run.
* Loops are modelled by fuel-based structural recursion; the fuel is the
  exact remaining iteration count of the source's `for` loop, so the
  recursion performs precisely the source's iterations.
-/

namespace Bucket

/-- Value of the cancellation flag at a point where `s` suspensions of the
run have already completed, for abort schedule `t`. -/
def flagAt (t : Option ℕ) (s : ℕ) : Bool :=
  match t with
  | none => false
  | some v => decide (v ≤ s)

/-! ## Data model shared by both artifacts -/

/-- The fields of `SimulatedFileSet` (from `large-file-simulator.ts`) that the
simulation logic reads: `fileCount`, `progressIntervalMs` and
`averageFileSize`.  (`name`, `totalSize`, `basePath` and
`fileSizeDistribution` are never read by the simulation loops.) -/
structure SimFileSet where
  fileCount : ℕ
  progressIntervalMs : ℕ
  averageFileSize : ℕ
deriving DecidableEq, Repr

/-- `calculateOverallProgress` from `progress-event-generator.ts`:
`((fileIndex + fileProgress) / totalFiles) * 100`. -/
def calculateOverallProgress (fileIndex : ℕ) (fileProgress : ℚ) (totalFiles : ℕ) : ℚ :=
  (((fileIndex : ℚ) + fileProgress) / (totalFiles : ℚ)) * 100

/-! ## The `ProgressEventGenerator` class -/

/-- A `ProgressEvent` as recorded in `emittedEvents` by
`ProgressEventGenerator.simulate` (the wall-clock `timestamp` field is not
modelled). -/
structure GenEvent where
  percent : ℚ
  fileIndex : ℕ
  fileProgress : ℚ
deriving DecidableEq, Repr

/-- `FailureConfig` from `progress-event-generator.ts`. -/
structure FailureConfig where
  failingFileIndices : List ℕ
  errorMessage : String
deriving DecidableEq, Repr

/-- The configuration of a `ProgressEventGenerator`: its scenario and the
`failureConfig` simulation option.  (`speedMultiplier` and the callback
options only affect timing resp. duplicate the modelled outputs.) -/
structure GenCfg where
  scenario : SimFileSet
  failureConfig : Option FailureConfig
deriving DecidableEq, Repr

/-- Whether `failureConfig?.failingFileIndices.includes(fileIndex)` holds. -/
def genFailing (cfg : GenCfg) (fileIndex : ℕ) : Bool :=
  match cfg.failureConfig with
  | none => false
  | some fc => decide (fileIndex ∈ fc.failingFileIndices)

/-- The error string pushed for a failing file:
`` `${failureConfig.errorMessage} (file ${fileIndex})` ``. -/
def genErrMsg (cfg : GenCfg) (fileIndex : ℕ) : String :=
  match cfg.failureConfig with
  | none => ""
  | some fc => fc.errorMessage ++ " (file " ++ Nat.repr fileIndex ++ ")"

/-- The identifier pushed to `completedFiles`: `` `file_${fileIndex}` ``. -/
def genFileName (fileIndex : ℕ) : String :=
  "file_" ++ Nat.repr fileIndex

/-- The fraction `(s+1)/eventsPerFile` with the generator's fixed
`eventsPerFile = 10`. -/
def genFileProgress (s : ℕ) : ℚ :=
  ((s : ℚ) + 1) / 10

/-- The event pushed for sub-step `s` of file `i` with `totalFiles = n`. -/
def mkGenEvent (n i s : ℕ) : GenEvent :=
  ⟨calculateOverallProgress i (genFileProgress s) n, i, genFileProgress s⟩

/-- The generator's inner loop (`for (let i = 0; i < eventsPerFile; i++)`).
Arguments: remaining iterations (fuel), current sub-step `s`, and the number
`k` of suspensions completed so far.  Every pushed event is followed by one
`await this.sleep(...)`, so `k` also counts pushed events. -/
def genChunkLoop (n : ℕ) (t : Option ℕ) (i : ℕ) : ℕ → ℕ → ℕ → List GenEvent
  | 0, _, _ => []
  | fuel + 1, s, k =>
    if flagAt t k then []
    else mkGenEvent n i s :: genChunkLoop n t i fuel (s + 1) (k + 1)

/-- Accumulated outputs of the generator's outer file loop. -/
structure GenLoopOut where
  events : List GenEvent
  completed : List String
  errors : List String
  kEnd : ℕ
deriving DecidableEq, Repr

/-- The generator's outer loop
(`for (let fileIndex = 0; fileIndex < fileCount; fileIndex++)`).
Arguments: remaining iterations (fuel), current `fileIndex` `i`, suspensions
completed `k`.  Note that in the source the `completedFiles.push` after the
inner loop runs even when the inner loop was left by an abort `break`; the
subsequent outer-loop check then sees the same flag value and breaks. -/
def genFileLoop (cfg : GenCfg) (t : Option ℕ) : ℕ → ℕ → ℕ → GenLoopOut
  | 0, _, k => ⟨[], [], [], k⟩
  | fuel + 1, i, k =>
    if flagAt t k then ⟨[], [], [], k⟩
    else if genFailing cfg i then
      let r := genFileLoop cfg t fuel (i + 1) k
      ⟨r.events, r.completed, genErrMsg cfg i :: r.errors, r.kEnd⟩
    else
      let ev := genChunkLoop cfg.scenario.fileCount t i 10 0 k
      let r := genFileLoop cfg t fuel (i + 1) (k + ev.length)
      ⟨ev ++ r.events, genFileName i :: r.completed, r.errors, r.kEnd⟩

/-- The observable outcome of one `simulate()` run: the returned
`{ success, completedFiles, errors }` object, the instance's `emittedEvents`
array, the final value of `this.aborted`, and whether the completion
callbacks (`onProgress(100)` / `onComplete`) fired. -/
structure GenResult where
  success : Bool
  completedFiles : List String
  errors : List String
  emittedEvents : List GenEvent
  abortedAtEnd : Bool
  completionSignalled : Bool
deriving DecidableEq, Repr

/-- `ProgressEventGenerator.simulate()` under abort schedule `t`.  The two
reads of `this.aborted` after the loop (the completion emission guard and the
`success` computation) are separated by no suspension, hence see the same
value and are modelled as one read. -/
def genSimulate (cfg : GenCfg) (t : Option ℕ) : GenResult :=
  let r := genFileLoop cfg t cfg.scenario.fileCount 0 0
  let ab := flagAt t r.kEnd
  ⟨r.errors.isEmpty && !ab, r.completed, r.errors, r.events, ab, !ab⟩

/-! ## `generateExpectedProgressEvents` -/

/-- A `ProgressEvent` of the pure reference sequence, including its
deterministic accumulated timestamp. -/
structure ExpEvent where
  percent : ℚ
  timestamp : ℕ
  fileIndex : ℕ
  fileProgress : ℚ
deriving DecidableEq, Repr

/-- Inner loop of `generateExpectedProgressEvents`: sub-steps of one file,
threading the accumulated timestamp. -/
def expInner (scenario : SimFileSet) (eventsPerFile : ℕ) (fileIndex : ℕ) :
    ℕ → ℕ → ℕ → List ExpEvent × ℕ
  | 0, _, ts => ([], ts)
  | fuel + 1, i, ts =>
    let fileProgress : ℚ := ((i : ℚ) + 1) / (eventsPerFile : ℚ)
    let percent := calculateOverallProgress fileIndex fileProgress scenario.fileCount
    let r := expInner scenario eventsPerFile fileIndex fuel (i + 1)
      (ts + scenario.progressIntervalMs)
    (⟨percent, ts, fileIndex, fileProgress⟩ :: r.1, r.2)

/-- Outer loop of `generateExpectedProgressEvents` over the files. -/
def expOuter (scenario : SimFileSet) (eventsPerFile : ℕ) : ℕ → ℕ → ℕ → List ExpEvent × ℕ
  | 0, _, ts => ([], ts)
  | fuel + 1, fi, ts =>
    let inner := expInner scenario eventsPerFile fi eventsPerFile 0 ts
    let rest := expOuter scenario eventsPerFile fuel (fi + 1) inner.2
    (inner.1 ++ rest.1, rest.2)

/-- `generateExpectedProgressEvents(scenario, eventsPerFile)` (the source's
default argument is `eventsPerFile = 10`). -/
def generateExpectedProgressEvents (scenario : SimFileSet) (eventsPerFile : ℕ) :
    List ExpEvent :=
  (expOuter scenario eventsPerFile scenario.fileCount 0 0).1

/-- The `(fileIndex, fileProgress, percent)` projection of a recorded event. -/
def genTriple (e : GenEvent) : ℕ × ℚ × ℚ :=
  (e.fileIndex, e.fileProgress, e.percent)

/-- The `(fileIndex, fileProgress, percent)` projection of a reference event. -/
def expTriple (e : ExpEvent) : ℕ × ℚ × ℚ :=
  (e.fileIndex, e.fileProgress, e.percent)

/-! ## The `move_files` handler of the Tauri E2E mock -/

/-- The fields of a `MockFile` read by the handler (`file.path` and
`simulatedSize`). -/
structure MockFileM where
  path : String
  simulatedSize : ℕ
deriving DecidableEq, Repr

/-- The two values of `FailureInjection.type`. -/
inductive FailKind
  | partialKind
  | completeKind
deriving DecidableEq, Repr

/-- `FailureInjection` from `tauri-e2e-mocks.ts` (`failingFileIndices` is an
optional field). -/
structure FailureInjectionM where
  kind : FailKind
  failingFileIndices : Option (List ℕ)
  errorMessage : String
deriving DecidableEq, Repr

/-- The parts of `TauriMockConfig` read by the `move_files` handler. -/
structure MocksCfg where
  scenario : SimFileSet
  mockFiles : List MockFileM
  maxEventsPerFile : Option ℕ
  enableIntraFileProgress : Option Bool
  failureInjection : Option FailureInjectionM
deriving DecidableEq, Repr

/-- JavaScript `a || d` for an optional number (`undefined` and `0` are
falsy). -/
def jsOrNat (a : Option ℕ) (d : ℕ) : ℕ :=
  match a with
  | none => d
  | some 0 => d
  | some (k + 1) => k + 1

/-- `totalFiles = cfg.mockFiles.length || 10`. -/
def totalFilesM (cfg : MocksCfg) : ℕ :=
  if cfg.mockFiles.length = 0 then 10 else cfg.mockFiles.length

/-- `enableIntraFile = cfg.enableIntraFileProgress !== false`. -/
def enableIntraM (cfg : MocksCfg) : Bool :=
  decide (cfg.enableIntraFileProgress ≠ some false)

/-- `maxEventsPerFile = cfg.maxEventsPerFile || 100`. -/
def maxEventsM (cfg : MocksCfg) : ℕ :=
  jsOrNat cfg.maxEventsPerFile 100

/-- `fileSize = mockFile?.simulatedSize || cfg.scenario.averageFileSize`. -/
def fileSizeM (cfg : MocksCfg) (i : ℕ) : ℕ :=
  match cfg.mockFiles.get? i with
  | none => cfg.scenario.averageFileSize
  | some f => if f.simulatedSize = 0 then cfg.scenario.averageFileSize else f.simulatedSize

/-- `Math.ceil(a / b)` on naturals. -/
def ceilDiv (a b : ℕ) : ℕ :=
  (a + b - 1) / b

/-- `eventsPerFile = Math.min(maxEventsPerFile, Math.ceil(fileSize / 8192))`
(`BUFFER_SIZE = 8192`). -/
def eventsPerFileM (cfg : MocksCfg) (i : ℕ) : ℕ :=
  min (maxEventsM cfg) (ceilDiv (fileSizeM cfg i) 8192)

/-- `cfg.failureInjection?.type === 'complete'`. -/
def isCompleteM (cfg : MocksCfg) : Bool :=
  match cfg.failureInjection with
  | none => false
  | some fi => decide (fi.kind = FailKind.completeKind)

/-- `cfg.failureInjection?.type === 'partial' &&
cfg.failureInjection.failingFileIndices?.includes(fileIndex)`. -/
def isPartialFailM (cfg : MocksCfg) (i : ℕ) : Bool :=
  match cfg.failureInjection with
  | none => false
  | some fi =>
    decide (fi.kind = FailKind.partialKind) &&
      (match fi.failingFileIndices with
       | none => false
       | some l => decide (i ∈ l))

/-- The error message of the injected failure (only read when an injection is
present). -/
def errMsgM (cfg : MocksCfg) : String :=
  match cfg.failureInjection with
  | none => ""
  | some fi => fi.errorMessage

/-- `mockFile?.file.path || \`file_${fileIndex}\`` (an empty path string is
falsy in JS). -/
def fileNameM (cfg : MocksCfg) (i : ℕ) : String :=
  match cfg.mockFiles.get? i with
  | none => "file_" ++ Nat.repr i
  | some f => if f.path = "" then "file_" ++ Nat.repr i else f.path

/-- An element of `window.__E2E_EVENTS__`: `percent`, `fileIndex` and (only
for intra-file events) `fileProgress`. -/
structure PushedEvent where
  percent : ℚ
  fileIndex : ℕ
  fileProgress : Option ℚ
deriving DecidableEq, Repr

/-- An event delivered to listeners via `emitEvent`. -/
inductive EmitEvt
  | progress (percent : ℚ)
  | cancelled (filesCompleted : ℕ) (movedFiles : List String)
  | copyError (message : String)
  | complete (movedFiles : List String)
deriving DecidableEq, Repr

/-- How the handler's file loop ended. -/
inductive MStatus
  | normal
  | cancelledEarly
  | errorEarly
deriving DecidableEq, Repr

/-- The fraction `(chunk+1)/eventsPerFile`. -/
def mFileProg (e c : ℕ) : ℚ :=
  ((c : ℚ) + 1) / (e : ℚ)

/-- The intra-file event pushed for chunk `c` of file `i` when the file gets
`e` events and `totalFiles = n` (the handler inlines the same formula as
`calculateOverallProgress`). -/
def mkChunkEvent (n i e c : ℕ) : PushedEvent :=
  ⟨calculateOverallProgress i (mFileProg e c) n, i, some (mFileProg e c)⟩

/-- The per-file event pushed in legacy (whole-file) mode:
`percent = ((fileIndex + 1) / totalFiles) * 100`, no `fileProgress`. -/
def mkLegacyEvent (n i : ℕ) : PushedEvent :=
  ⟨(((i : ℚ) + 1) / (n : ℚ)) * 100, i, none⟩

/-- The handler's intra-file chunk loop
(`for (let chunk = 0; chunk < eventsPerFile; chunk++)`).
Arguments: remaining iterations (fuel), chunk index `c`, suspensions
completed `s`.  Returns pushed events, emitted events, the updated
suspension count, and whether the loop returned early on cancellation
(in which case the whole handler returns).  The inter-chunk wait is skipped
after the last chunk (`chunk < eventsPerFile - 1`). -/
def mChunkLoop (n : ℕ) (t : Option ℕ) (i e : ℕ) (moved : List String) :
    ℕ → ℕ → ℕ → List PushedEvent × List EmitEvt × ℕ × Bool
  | 0, _, s => ([], [], s, false)
  | fuel + 1, c, s =>
    if flagAt t s then ([], [EmitEvt.cancelled i moved], s, true)
    else
      let ev := mkChunkEvent n i e c
      let s' := if c < e - 1 then s + 1 else s
      let r := mChunkLoop n t i e moved fuel (c + 1) s'
      (ev :: r.1, EmitEvt.progress ev.percent :: r.2.1, r.2.2)

/-- The handler's outer file loop
(`for (let fileIndex = 0; fileIndex < totalFiles; fileIndex++)`).
Arguments: remaining iterations (fuel), `fileIndex` `i`, suspensions
completed `s`, and the `movedFiles` accumulated so far.  The inter-file wait
is skipped after the last file (`fileIndex < totalFiles - 1`). -/
def mFileLoop (cfg : MocksCfg) (t : Option ℕ) :
    ℕ → ℕ → ℕ → List String → List PushedEvent × List EmitEvt × List String × MStatus
  | 0, _, _, moved => ([], [], moved, MStatus.normal)
  | fuel + 1, i, s, moved =>
    if flagAt t s then ([], [EmitEvt.cancelled i moved], moved, MStatus.cancelledEarly)
    else if isCompleteM cfg then ([], [EmitEvt.copyError (errMsgM cfg)], moved, MStatus.errorEarly)
    else if isPartialFailM cfg i then mFileLoop cfg t fuel (i + 1) s moved
    else
      let step :=
        if enableIntraM cfg then
          mChunkLoop (totalFilesM cfg) t i (eventsPerFileM cfg i) moved (eventsPerFileM cfg i) 0 s
        else
          ([mkLegacyEvent (totalFilesM cfg) i],
           [EmitEvt.progress (mkLegacyEvent (totalFilesM cfg) i).percent], s, false)
      if step.2.2.2 then (step.1, step.2.1, moved, MStatus.cancelledEarly)
      else
        let moved' := moved ++ [fileNameM cfg i]
        let s' := if i < totalFilesM cfg - 1 then step.2.2.1 + 1 else step.2.2.1
        let r := mFileLoop cfg t fuel (i + 1) s' moved'
        (step.1 ++ r.1, step.2.1 ++ r.2.1, r.2.2)

/-- The observable outcome of one `move_files` invocation. -/
structure MoveResult where
  events : List PushedEvent
  emitted : List EmitEvt
  movedFiles : List String
  status : MStatus
deriving DecidableEq, Repr

/-- The `move_files` handler under abort schedule `t` (the
`win.__E2E_CANCELLED__` flag is reset to `false` synchronously before the
simulation starts).  On normal loop completion the handler unconditionally
pushes a final `{ percent: 100, fileIndex: totalFiles - 1 }` event and emits
`copy_progress 100` followed by `copy_complete`. -/
def moveFiles (cfg : MocksCfg) (t : Option ℕ) : MoveResult :=
  let r := mFileLoop cfg t (totalFilesM cfg) 0 0 []
  match r.2.2.2 with
  | MStatus.normal =>
    ⟨r.1 ++ [⟨100, totalFilesM cfg - 1, none⟩],
     r.2.1 ++ [EmitEvt.progress 100, EmitEvt.complete r.2.2.1],
     r.2.2.1, MStatus.normal⟩
  | st => ⟨r.1, r.2.1, r.2.2.1, st⟩

/-! ## Derived closed forms used in the statements and proofs -/

/-- The block of events an uncancelled generator run produces for file `i`:
nothing for a failing file, otherwise the ten sub-step events. -/
def genBlock (cfg : GenCfg) (i : ℕ) : List GenEvent :=
  if genFailing cfg i then []
  else (List.range 10).map (mkGenEvent cfg.scenario.fileCount i)

/-- Concatenation of the blocks of files `i, i+1, …, i+fuel-1`. -/
def genBlocks (cfg : GenCfg) : ℕ → ℕ → List GenEvent
  | _, 0 => []
  | i, fuel + 1 => genBlock cfg i ++ genBlocks cfg (i + 1) fuel

/-- The `completedFiles` list of an uncancelled run over files
`i0, …, i0+fuel-1`: the names of exactly the non-failing indices, in order. -/
def genCompletedSpec (cfg : GenCfg) (i0 fuel : ℕ) : List String :=
  ((((List.range fuel).map (i0 + ·)).filter (fun j => !genFailing cfg j)).map genFileName)

/-- The `errors` list of an uncancelled run over files `i0, …, i0+fuel-1`:
one message per failing index, in order. -/
def genErrorsSpec (cfg : GenCfg) (i0 fuel : ℕ) : List String :=
  ((((List.range fuel).map (i0 + ·)).filter (fun j => genFailing cfg j)).map (genErrMsg cfg))

/-- The block of `__E2E_EVENTS__` entries an uncancelled `move_files` run
produces for file `j` (not counting the final 100% event). -/
def mFileBlock (cfg : MocksCfg) (j : ℕ) : List PushedEvent :=
  if isPartialFailM cfg j then []
  else if enableIntraM cfg then
    (List.range (eventsPerFileM cfg j)).map
      (mkChunkEvent (totalFilesM cfg) j (eventsPerFileM cfg j))
  else [mkLegacyEvent (totalFilesM cfg) j]

/-- Concatenation of the mock blocks of files `i, i+1, …, i+fuel-1`. -/
def mBlocks (cfg : MocksCfg) : ℕ → ℕ → List PushedEvent
  | _, 0 => []
  | i, fuel + 1 => mFileBlock cfg i ++ mBlocks cfg (i + 1) fuel

/-! ## Concrete configurations used in witnesses and counterexamples -/

/-- Mock config of the spec's formula-exactness example: ten files (empty
`mockFiles`, so `totalFiles = 10`), 100 MiB average size,
`maxEventsPerFile = 5`, intra-file progress on, no failure injection. -/
def cfgMockTen : MocksCfg := ⟨⟨10, 100, 104857600⟩, [], some 5, none, none⟩

/-- Mock config for the chunk-count witness: one 20000-byte file, so
`eventsPerFile = min 10 (ceil 20000/8192) = 3`. -/
def cfgMockSmall : MocksCfg := ⟨⟨1, 10, 0⟩, [⟨"/a.mov", 20000⟩], some 10, none, none⟩

/-- Mock config with a complete-failure injection (`totalFiles = 10`). -/
def cfgMockComplete : MocksCfg :=
  ⟨⟨10, 5, 0⟩, [], some 10, none, some ⟨FailKind.completeKind, none, "boom"⟩⟩

/-- Mock config in legacy (whole-file) mode with two files of which the
first fails. -/
def cfgMockLegacy : MocksCfg :=
  ⟨⟨2, 5, 0⟩, [⟨"/a", 100⟩, ⟨"/b", 100⟩], some 10, some false,
   some ⟨FailKind.partialKind, some [0], "x"⟩⟩

/-- Generator config: two files, the last one failing. -/
def cfgGenFailLast : GenCfg := ⟨⟨2, 5, 0⟩, some ⟨[1], "fail"⟩⟩

/-- Generator config: a single file, no failures. -/
def cfgGenOne : GenCfg := ⟨⟨1, 5, 0⟩, none⟩

/-- Generator config: two files, no failures. -/
def cfgGenTwo : GenCfg := ⟨⟨2, 7, 0⟩, none⟩

/-- Generator config of the spec's failure-skip example: ten files with
index 5 failing. -/
def cfgGenTenFailFive : GenCfg := ⟨⟨10, 5, 0⟩, some ⟨[5], "Disk full"⟩⟩

/-- Generator config: two files, the first one failing. -/
def cfgGenFailFirst : GenCfg := ⟨⟨2, 5, 0⟩, some ⟨[0], "x"⟩⟩

/-! ## Basic lemmas -/

theorem flagAt_none (s : ℕ) : flagAt none s = false := rfl

theorem totalFilesM_pos (cfg : MocksCfg) : 0 < totalFilesM cfg := by
  unfold totalFilesM
  split <;> omega

theorem range_map_add_succ (i fuel : ℕ) :
    (List.range (fuel + 1)).map (i + ·) = i :: (List.range fuel).map ((i + 1) + ·) := by
  simp only [List.range_succ_eq_map, List.map_cons, Nat.add_zero, List.map_map]
  refine congrArg _ (congrArg (List.map · _) ?_)
  funext d
  simp [Function.comp, Nat.succ_eq_add_one]
  omega

/-! ## Closed forms for uncancelled chunk loops -/

theorem mChunkLoop_none (n : ℕ) (i e : ℕ) (m : List String) :
    ∀ fuel c s,
      (mChunkLoop n none i e m fuel c s).1 =
        (List.range fuel).map (fun d => mkChunkEvent n i e (c + d)) ∧
      (mChunkLoop n none i e m fuel c s).2.2.2 = false := by
  intro fuel
  induction fuel with
  | zero => intro c s; simp [mChunkLoop]
  | succ fuel ih =>
    intro c s
    obtain ⟨h1, h2⟩ := ih (c + 1) (if c < e - 1 then s + 1 else s)
    refine ⟨?_, by simpa [mChunkLoop, flagAt] using h2⟩
    simp only [mChunkLoop, flagAt, Bool.false_eq_true, if_false, h1,
      List.range_succ_eq_map, List.map_cons, Nat.add_zero, List.map_map]
    refine congrArg _ ?_
    refine congrArg (List.map · _) ?_
    funext d
    simp only [Function.comp, Nat.succ_eq_add_one]
    congr 1
    omega

theorem genChunkLoop_none (n : ℕ) (i : ℕ) :
    ∀ fuel s k,
      genChunkLoop n none i fuel s k =
        (List.range fuel).map (fun d => mkGenEvent n i (s + d)) := by
  intro fuel
  induction fuel with
  | zero => intro s k; simp [genChunkLoop]
  | succ fuel ih =>
    intro s k
    simp only [genChunkLoop, flagAt, Bool.false_eq_true, if_false, ih (s + 1) (k + 1),
      List.range_succ_eq_map, List.map_cons, Nat.add_zero, List.map_map]
    refine congrArg _ ?_
    refine congrArg (List.map · _) ?_
    funext d
    simp only [Function.comp, Nat.succ_eq_add_one]
    congr 1
    omega

theorem genChunkLoop_none_length (n i fuel s k : ℕ) :
    (genChunkLoop n none i fuel s k).length = fuel := by
  simp [genChunkLoop_none]

/-! ## Closed forms for uncancelled file loops -/

theorem genCompletedSpec_succ (cfg : GenCfg) (i fuel : ℕ) :
    genCompletedSpec cfg i (fuel + 1) =
      if genFailing cfg i then genCompletedSpec cfg (i + 1) fuel
      else genFileName i :: genCompletedSpec cfg (i + 1) fuel := by
  unfold genCompletedSpec
  rw [range_map_add_succ]
  by_cases h : genFailing cfg i <;> simp [h]

theorem genErrorsSpec_succ (cfg : GenCfg) (i fuel : ℕ) :
    genErrorsSpec cfg i (fuel + 1) =
      if genFailing cfg i then genErrMsg cfg i :: genErrorsSpec cfg (i + 1) fuel
      else genErrorsSpec cfg (i + 1) fuel := by
  unfold genErrorsSpec
  rw [range_map_add_succ]
  by_cases h : genFailing cfg i <;> simp [h]

theorem genFileLoop_none (cfg : GenCfg) :
    ∀ fuel i k,
      (genFileLoop cfg none fuel i k).events = genBlocks cfg i fuel ∧
      (genFileLoop cfg none fuel i k).completed = genCompletedSpec cfg i fuel ∧
      (genFileLoop cfg none fuel i k).errors = genErrorsSpec cfg i fuel := by
  intro fuel
  induction fuel with
  | zero =>
    intro i k
    simp [genFileLoop, genBlocks, genCompletedSpec, genErrorsSpec]
  | succ fuel ih =>
    intro i k
    by_cases hf : genFailing cfg i
    · obtain ⟨h1, h2, h3⟩ := ih (i + 1) k
      refine ⟨?_, ?_, ?_⟩ <;>
        simp [genFileLoop, flagAt, hf, h1, h2, h3, genBlocks, genBlock,
          genCompletedSpec_succ, genErrorsSpec_succ]
    · obtain ⟨h1, h2, h3⟩ := ih (i + 1) (k + 10)
      refine ⟨?_, ?_, ?_⟩ <;>
        simp [genFileLoop, flagAt, hf, h1, h2, h3, genBlocks, genBlock,
          genCompletedSpec_succ, genErrorsSpec_succ, genChunkLoop_none]

theorem mFileLoop_none (cfg : MocksCfg) (hc : isCompleteM cfg = false) :
    ∀ fuel i s m,
      (mFileLoop cfg none fuel i s m).1 = mBlocks cfg i fuel ∧
      (mFileLoop cfg none fuel i s m).2.2.2 = MStatus.normal := by
  intro fuel
  induction fuel with
  | zero => intro i s m; simp [mFileLoop, mBlocks]
  | succ fuel ih =>
    intro i s m
    by_cases hp : isPartialFailM cfg i
    · obtain ⟨h1, h2⟩ := ih (i + 1) s m
      refine ⟨?_, ?_⟩ <;> simp [mFileLoop, flagAt, hc, hp, h1, h2, mBlocks, mFileBlock]
    · by_cases he : enableIntraM cfg
      · obtain ⟨hch, hcb⟩ := mChunkLoop_none (totalFilesM cfg) i (eventsPerFileM cfg i) m
          (eventsPerFileM cfg i) 0 s
        have hr := fun s' m' => ih (i + 1) s' m'
        refine ⟨?_, ?_⟩ <;>
          simp [mFileLoop, flagAt, hc, hp, he, hcb, hch, (hr _ _).1, (hr _ _).2,
            mBlocks, mFileBlock]
      · have hr := fun s' m' => ih (i + 1) s' m'
        refine ⟨?_, ?_⟩ <;>
          simp [mFileLoop, flagAt, hc, hp, he, (hr _ _).1, (hr _ _).2,
            mBlocks, mFileBlock]

/-! ## The intra-file percent formula -/

theorem mChunkLoop_percent (n : ℕ) (t : Option ℕ) (i e : ℕ) (m : List String) :
    ∀ fuel c s, ∀ ev ∈ (mChunkLoop n t i e m fuel c s).1, ∀ fp,
      ev.fileProgress = some fp →
      ev.percent = calculateOverallProgress ev.fileIndex fp n := by
  intro fuel
  induction fuel with
  | zero => intro c s ev hev; simp [mChunkLoop] at hev
  | succ fuel ih =>
    intro c s ev hev fp hfp
    cases hf : flagAt t s with
    | true => simp [mChunkLoop, hf] at hev
    | false =>
      simp only [mChunkLoop, hf, Bool.false_eq_true, if_false, List.mem_cons] at hev
      rcases hev with h | h
      · subst h
        simp only [mkChunkEvent, Option.some.injEq] at hfp
        subst hfp
        rfl
      · exact ih (c + 1) _ ev h fp hfp

theorem mFileLoop_percent (cfg : MocksCfg) (t : Option ℕ) :
    ∀ fuel i s m, ∀ ev ∈ (mFileLoop cfg t fuel i s m).1, ∀ fp,
      ev.fileProgress = some fp →
      ev.percent = calculateOverallProgress ev.fileIndex fp (totalFilesM cfg) := by
  intro fuel
  induction fuel with
  | zero => intro i s m ev hev; simp [mFileLoop] at hev
  | succ fuel ih =>
    intro i s m ev hev fp hfp
    cases hf : flagAt t s with
    | true => simp [mFileLoop, hf] at hev
    | false =>
      cases hcomp : isCompleteM cfg with
      | true => simp [mFileLoop, hf, hcomp] at hev
      | false =>
        cases hpart : isPartialFailM cfg i with
        | true =>
          simp only [mFileLoop, hf, hcomp, hpart, Bool.false_eq_true, if_false, if_true] at hev
          exact ih (i + 1) s m ev hev fp hfp
        | false =>
          cases hintra : enableIntraM cfg with
          | true =>
            cases hcb : (mChunkLoop (totalFilesM cfg) t i (eventsPerFileM cfg i) m
                (eventsPerFileM cfg i) 0 s).2.2.2 with
            | true =>
              simp only [mFileLoop, hf, hcomp, hpart, hintra, hcb, Bool.false_eq_true,
                if_false, if_true] at hev
              exact mChunkLoop_percent _ t _ _ m _ _ _ ev hev fp hfp
            | false =>
              simp only [mFileLoop, hf, hcomp, hpart, hintra, hcb, Bool.false_eq_true,
                if_false, if_true, List.mem_append] at hev
              rcases hev with h | h
              · exact mChunkLoop_percent _ t _ _ m _ _ _ ev h fp hfp
              · exact ih (i + 1) _ _ ev h fp hfp
          | false =>
            simp only [mFileLoop, hf, hcomp, hpart, hintra, Bool.false_eq_true, if_false,
              if_true, List.mem_append, List.mem_singleton] at hev
            rcases hev with h | h
            · subst h
              simp [mkLegacyEvent] at hfp
            · exact ih (i + 1) _ _ ev h fp hfp

theorem genFileLoop_percent (cfg : GenCfg) (t : Option ℕ) :
    ∀ fuel i k, ∀ ev ∈ (genFileLoop cfg t fuel i k).events,
      ev.percent =
        calculateOverallProgress ev.fileIndex ev.fileProgress cfg.scenario.fileCount := by
  have chunk : ∀ n i, ∀ fuel s k, ∀ ev ∈ genChunkLoop n t i fuel s k,
      ev.percent = calculateOverallProgress ev.fileIndex ev.fileProgress n := by
    intro n i fuel
    induction fuel with
    | zero => intro s k ev hev; simp [genChunkLoop] at hev
    | succ fuel ih =>
      intro s k ev hev
      cases hf : flagAt t k with
      | true => simp [genChunkLoop, hf] at hev
      | false =>
        simp only [genChunkLoop, hf, Bool.false_eq_true, if_false, List.mem_cons] at hev
        rcases hev with h | h
        · subst h; rfl
        · exact ih (s + 1) (k + 1) ev h
  intro fuel
  induction fuel with
  | zero => intro i k ev hev; simp [genFileLoop] at hev
  | succ fuel ih =>
    intro i k ev hev
    cases hf : flagAt t k with
    | true => simp [genFileLoop, hf] at hev
    | false =>
      cases hfail : genFailing cfg i with
      | true =>
        simp only [genFileLoop, hf, hfail, Bool.false_eq_true, if_false, if_true] at hev
        exact ih (i + 1) k ev hev
      | false =>
        simp only [genFileLoop, hf, hfail, Bool.false_eq_true, if_false, if_true,
          List.mem_append] at hev
        rcases hev with h | h
        · exact chunk _ i 10 0 k ev h
        · exact ih (i + 1) _ ev h

/-- Claim C1: every intra-file progress event carries
`percent = ((fileIndex + fileProgress) / totalFiles) * 100` — in the
`move_files` mock (first conjunct, for events carrying a `fileProgress`) and
in the generator (second conjunct, all of whose recorded events are
intra-file events); in particular, in the spec's ten-file example with
`maxEventsPerFile = 5`, the event after file 0's final sub-step (event
index 4) has percent exactly 10 and the event after file 4's final sub-step
(event index 24) has percent exactly 50. -/
theorem claim_C1 :
    (∀ (cfg : MocksCfg) (t : Option ℕ), ∀ ev ∈ (moveFiles cfg t).events, ∀ fp,
        ev.fileProgress = some fp →
        ev.percent = calculateOverallProgress ev.fileIndex fp (totalFilesM cfg)) ∧
    (∀ (cfg : GenCfg) (t : Option ℕ), ∀ ev ∈ (genSimulate cfg t).emittedEvents,
        ev.percent =
          calculateOverallProgress ev.fileIndex ev.fileProgress cfg.scenario.fileCount) ∧
    (moveFiles cfgMockTen none).events.get? 4 = some ⟨10, 0, some 1⟩ ∧
    (moveFiles cfgMockTen none).events.get? 24 = some ⟨50, 4, some 1⟩ := by
  refine ⟨?_, ?_, by with_unfolding_all decide, by with_unfolding_all decide⟩
  · intro cfg t ev hev fp hfp
    unfold moveFiles at hev
    rcases hst : (mFileLoop cfg t (totalFilesM cfg) 0 0 []).2.2.2 with _ | _ | _
    · simp only [hst, List.mem_append, List.mem_singleton] at hev
      rcases hev with h | h
      · exact mFileLoop_percent cfg t _ 0 0 [] ev h fp hfp
      · subst h; simp at hfp
    · simp only [hst] at hev
      exact mFileLoop_percent cfg t _ 0 0 [] ev hev fp hfp
    · simp only [hst] at hev
      exact mFileLoop_percent cfg t _ 0 0 [] ev hev fp hfp
  · intro cfg t ev hev
    exact genFileLoop_percent cfg t _ 0 0 ev hev

/-- Witness for C1: the formula instantiated at the recorded event after
file 0's final sub-step in the ten-file example. -/
theorem claim_C1_witness :
    (⟨10, 0, some 1⟩ : PushedEvent).percent =
      calculateOverallProgress (⟨10, 0, some 1⟩ : PushedEvent).fileIndex 1
        (totalFilesM cfgMockTen) :=
  claim_C1.1 cfgMockTen none ⟨10, 0, some 1⟩ (by with_unfolding_all decide) 1 rfl

/-- Claim C7: a generator run's `success` is true iff its `errors` list is
empty and the run was not cancelled (final value of `this.aborted` false);
concretely, an error-free cancelled run has `success = false`, and a run
with a recorded per-file error that ran to the end (not aborted) has
`success = false`. -/
theorem claim_C7 :
    (∀ (cfg : GenCfg) (t : Option ℕ),
        (genSimulate cfg t).success = true ↔
          (genSimulate cfg t).errors = [] ∧ (genSimulate cfg t).abortedAtEnd = false) ∧
    ((genSimulate cfgGenOne (some 0)).success = false ∧
      (genSimulate cfgGenOne (some 0)).errors = []) ∧
    ((genSimulate cfgGenFailFirst none).success = false ∧
      (genSimulate cfgGenFailFirst none).abortedAtEnd = false) := by
  refine ⟨?_, by with_unfolding_all decide, by with_unfolding_all decide⟩
  intro cfg t
  simp only [genSimulate, Bool.and_eq_true, Bool.not_eq_true', List.isEmpty_iff]

/-- Claim C8: a `move_files` run with a `complete` failure injection (and no
cancellation) aborts immediately: no files are moved, exactly one
`copy_error` is emitted, and no progress events at all are recorded. -/
theorem claim_C8 :
    ∀ (cfg : MocksCfg) (fi : FailureInjectionM), cfg.failureInjection = some fi →
      fi.kind = FailKind.completeKind →
      (moveFiles cfg none).movedFiles = [] ∧
      (moveFiles cfg none).emitted = [EmitEvt.copyError fi.errorMessage] ∧
      (moveFiles cfg none).events = [] := by
  intro cfg fi hfi hk
  have hcomp : isCompleteM cfg = true := by simp [isCompleteM, hfi, hk]
  have hn : 0 < totalFilesM cfg := totalFilesM_pos cfg
  obtain ⟨m, hm⟩ : ∃ m, totalFilesM cfg = m + 1 := ⟨totalFilesM cfg - 1, by omega⟩
  unfold moveFiles
  rw [hm]
  simp [mFileLoop, flagAt, hcomp, errMsgM, hfi]

/-- Witness for C8: the complete-failure run of `cfgMockComplete`. -/
theorem claim_C8_witness :
    (moveFiles cfgMockComplete none).movedFiles = [] ∧
    (moveFiles cfgMockComplete none).emitted = [EmitEvt.copyError "boom"] ∧
    (moveFiles cfgMockComplete none).events = [] :=
  claim_C8 cfgMockComplete ⟨FailKind.completeKind, none, "boom"⟩ rfl rfl

/-- Claim C5: failing files produce exactly one recorded error each (message
including the file index), are excluded from `completedFiles` (which lists
exactly the non-failing files, in order), and the percentage denominator of
every recorded event stays `fileCount`; concretely, for ten files with
index 5 failing: nine completed files, `file_5` absent, the single expected
error message recorded, and the run's final recorded percent is 100. -/
theorem claim_C5 :
    (∀ cfg : GenCfg,
        (genSimulate cfg none).errors = genErrorsSpec cfg 0 cfg.scenario.fileCount ∧
        (genSimulate cfg none).completedFiles =
          genCompletedSpec cfg 0 cfg.scenario.fileCount ∧
        ∀ ev ∈ (genSimulate cfg none).emittedEvents,
          ev.percent =
            calculateOverallProgress ev.fileIndex ev.fileProgress
              cfg.scenario.fileCount) ∧
    (genSimulate cfgGenTenFailFive none).completedFiles.length = 9 ∧
    "file_5" ∉ (genSimulate cfgGenTenFailFive none).completedFiles ∧
    (genSimulate cfgGenTenFailFive none).errors = ["Disk full (file 5)"] ∧
    (genSimulate cfgGenTenFailFive none).emittedEvents.getLast?.map (·.percent) =
      some 100 := by
  refine ⟨?_, by with_unfolding_all decide, by with_unfolding_all decide,
    by with_unfolding_all decide, by with_unfolding_all decide⟩
  intro cfg
  obtain ⟨h1, h2, h3⟩ := genFileLoop_none cfg cfg.scenario.fileCount 0 0
  refine ⟨by simpa [genSimulate] using h3, by simpa [genSimulate] using h2, ?_⟩
  intro ev hev
  exact genFileLoop_percent cfg none _ 0 0 ev (by simpa [genSimulate] using hev)

/-- Counterexample to C3 as stated: a generator run that completes without
cancellation but whose last file fails records no final 100% event in
`emittedEvents` — with two files and index 1 failing, the last recorded
percent is 50, not 100. -/
theorem claim_C3_counterexample :
    (genSimulate cfgGenFailLast none).abortedAtEnd = false ∧
    (genSimulate cfgGenFailLast none).emittedEvents.getLast?.map (·.percent) = some 50 ∧
    ¬((genSimulate cfgGenFailLast none).emittedEvents.getLast?.map (·.percent) =
        some 100) := by
  with_unfolding_all decide

/-- The last event of an uncancelled, failure-free generator run is the
final sub-step event of the last file. -/
theorem genBlocks_getLast_noFail (cfg : GenCfg)
    (hf : ∀ j, genFailing cfg j = false) :
    ∀ fuel i, 1 ≤ fuel →
      (genBlocks cfg i fuel).getLast? =
        some (mkGenEvent cfg.scenario.fileCount (i + fuel - 1) 9) := by
  intro fuel
  induction fuel with
  | zero => intro i h; omega
  | succ fuel ih =>
    intro i _
    cases fuel with
    | zero =>
      show (genBlocks cfg i 1).getLast? = some (mkGenEvent cfg.scenario.fileCount (i + 1 - 1) 9)
      simp only [genBlocks, genBlock, hf i, Bool.false_eq_true, if_false, List.append_nil,
        Nat.add_sub_cancel]
      rw [show (10 : ℕ) = 9 + 1 from rfl, List.range_succ, List.map_append]
      simp [List.getLast?_concat]
    | succ fuel' =>
      have hrest := ih (i + 1) (by omega)
      have harith : i + 1 + (fuel' + 1) - 1 = i + (fuel' + 1 + 1) - 1 := by omega
      rw [genBlocks, List.getLast?_append, hrest, harith]
      rfl

/-- Claim C3, corrected.  The `move_files` mock handler does append a final
event with percent exactly 100, so for every run completing without
cancellation and without a complete-failure injection — failing file indices
included — the last recorded event's percent is exactly 100 (first
conjunct).  The generator, however, only signals completion through the
`onProgress(100)` callback and appends no such event to `emittedEvents`, so
its last recorded event's percent is exactly 100 (and completion is
signalled) for runs with zero failing indices and at least one file (second
conjunct); with a failing last file the last recorded percent stays below
100 (see the counterexample). -/
theorem claim_C3_amended :
    (∀ cfg : MocksCfg, isCompleteM cfg = false →
        (moveFiles cfg none).events.getLast?.map (·.percent) = some 100) ∧
    (∀ cfg : GenCfg, (∀ j, genFailing cfg j = false) → 1 ≤ cfg.scenario.fileCount →
        (genSimulate cfg none).emittedEvents.getLast?.map (·.percent) = some 100 ∧
        (genSimulate cfg none).completionSignalled = true) := by
  constructor
  · intro cfg hc
    obtain ⟨hev, hst⟩ := mFileLoop_none cfg hc (totalFilesM cfg) 0 0 []
    simp only [moveFiles, hst]
    rw [List.getLast?_concat]
    rfl
  · intro cfg hf hn
    obtain ⟨h1, _, _⟩ := genFileLoop_none cfg cfg.scenario.fileCount 0 0
    have hev : (genSimulate cfg none).emittedEvents = genBlocks cfg 0 cfg.scenario.fileCount := by
      simpa [genSimulate] using h1
    refine ⟨?_, by simp [genSimulate, flagAt]⟩
    rw [hev, genBlocks_getLast_noFail cfg hf _ 0 hn]
    have hne : ((cfg.scenario.fileCount : ℚ)) ≠ 0 :=
      Nat.cast_ne_zero.mpr (by omega)
    simp only [Option.map_some, mkGenEvent, calculateOverallProgress, genFileProgress,
      Nat.zero_add]
    norm_num
    rw [Nat.cast_sub hn]
    push_cast
    field_simp

/-- Witness for C3 (amended): the ten-file mock example reaches exactly 100,
and a failure-free single-file generator run ends at exactly 100 with
completion signalled. -/
theorem claim_C3_witness :
    (moveFiles cfgMockTen none).events.getLast?.map (·.percent) = some 100 ∧
    ((genSimulate cfgGenOne none).emittedEvents.getLast?.map (·.percent) = some 100 ∧
      (genSimulate cfgGenOne none).completionSignalled = true) :=
  ⟨claim_C3_amended.1 cfgMockTen rfl,
   claim_C3_amended.2 cfgGenOne (fun _ => rfl) (by decide)⟩

/-! ## Monotonicity machinery -/

theorem pct_le_pct {n : ℕ} (hn : 0 < n) {a b : ℚ} (h : a ≤ b) :
    a / (n : ℚ) * 100 ≤ b / (n : ℚ) * 100 := by
  have hn' : (0 : ℚ) < (n : ℚ) := by exact_mod_cast hn
  exact mul_le_mul_of_nonneg_right ((div_le_div_iff_of_pos_right hn').mpr h) (by norm_num)

theorem pct_lt_pct {n : ℕ} (hn : 0 < n) {a b : ℚ} (h : a < b) :
    a / (n : ℚ) * 100 < b / (n : ℚ) * 100 := by
  have hn' : (0 : ℚ) < (n : ℚ) := by exact_mod_cast hn
  exact mul_lt_mul_of_pos_right ((div_lt_div_iff_of_pos_right hn').mpr h) (by norm_num)

/-- A `move_files` run with a complete-failure injection and no cancellation
returns at the first loop iteration. -/
theorem moveFiles_complete (cfg : MocksCfg) (hc : isCompleteM cfg = true) :
    moveFiles cfg none =
      ⟨[], [EmitEvt.copyError (errMsgM cfg)], [], MStatus.errorEarly⟩ := by
  obtain ⟨m, hm⟩ : ∃ m, totalFilesM cfg = m + 1 :=
    ⟨totalFilesM cfg - 1, by have := totalFilesM_pos cfg; omega⟩
  unfold moveFiles
  rw [hm]
  simp [mFileLoop, flagAt, hc]

/-- Bounds and strict sortedness of the uncancelled generator run's events:
every event of the blocks for files `i, …, i+fuel-1` has
`percent = q / fileCount * 100` for some `q` with `i < q ≤ i + fuel`, and
the percents are strictly increasing. -/
theorem genBlocks_sorted (cfg : GenCfg) (hn : 0 < cfg.scenario.fileCount) :
    ∀ fuel i,
      (∀ ev ∈ genBlocks cfg i fuel, ∃ q : ℚ,
          ev.percent = q / (cfg.scenario.fileCount : ℚ) * 100 ∧
          (i : ℚ) < q ∧ q ≤ (i : ℚ) + (fuel : ℚ)) ∧
      List.Pairwise (fun a b : GenEvent => a.percent < b.percent)
        (genBlocks cfg i fuel) := by
  have hblk : ∀ i : ℕ, (∀ ev ∈ genBlock cfg i, ∃ q : ℚ,
      ev.percent = q / (cfg.scenario.fileCount : ℚ) * 100 ∧
      (i : ℚ) < q ∧ q ≤ (i : ℚ) + 1) ∧
      List.Pairwise (fun a b : GenEvent => a.percent < b.percent) (genBlock cfg i) := by
    intro i
    unfold genBlock
    by_cases hf : genFailing cfg i
    · simp [hf]
    · simp only [hf, Bool.false_eq_true, if_false]
      constructor
      · intro ev hev
        obtain ⟨s, hs, rfl⟩ := List.mem_map.mp hev
        have hs' : s < 10 := List.mem_range.mp hs
        refine ⟨(i : ℚ) + ((s : ℚ) + 1) / 10, rfl, ?_, ?_⟩
        · have : (0 : ℚ) < ((s : ℚ) + 1) / 10 := by positivity
          linarith
        · have h1 : (s : ℚ) + 1 ≤ 10 := by exact_mod_cast Nat.succ_le_of_lt hs'
          have : ((s : ℚ) + 1) / 10 ≤ 1 := by
            rw [div_le_one (by norm_num : (0 : ℚ) < 10)]
            exact h1
          linarith
      · refine List.Pairwise.map _ ?_ (List.pairwise_lt_range 10)
        intro a b hab
        simp only [mkGenEvent, calculateOverallProgress, genFileProgress]
        refine pct_lt_pct hn ?_
        have hab' : ((a : ℚ) + 1) / 10 < ((b : ℚ) + 1) / 10 := by
          rw [div_lt_div_iff_of_pos_right (by norm_num : (0 : ℚ) < 10)]
          have : (a : ℚ) < (b : ℚ) := by exact_mod_cast hab
          linarith
        linarith
  intro fuel
  induction fuel with
  | zero => intro i; simp [genBlocks]
  | succ fuel ih =>
    intro i
    obtain ⟨ihm, ihp⟩ := ih (i + 1)
    obtain ⟨hbm, hbp⟩ := hblk i
    rw [genBlocks]
    constructor
    · intro ev hev
      rcases List.mem_append.mp hev with h | h
      · obtain ⟨q, hq, h1, h2⟩ := hbm ev h
        exact ⟨q, hq, h1, by push_cast; linarith⟩
      · obtain ⟨q, hq, h1, h2⟩ := ihm ev h
        refine ⟨q, hq, ?_, ?_⟩ <;> push_cast at h1 h2 ⊢ <;> linarith
    · rw [List.pairwise_append]
      refine ⟨hbp, ihp, ?_⟩
      intro x hx y hy
      obtain ⟨qx, hqx, _, hx2⟩ := hbm x hx
      obtain ⟨qy, hqy, hy1, _⟩ := ihm y hy
      rw [hqx, hqy]
      refine pct_lt_pct hn ?_
      push_cast at hx2 hy1 ⊢
      linarith

/-- Bounds and sortedness of the uncancelled `move_files` run's per-file
event blocks (non-strict: legacy and intra events alike). -/
theorem mBlocks_sorted (cfg : MocksCfg) :
    ∀ fuel i,
      (∀ ev ∈ mBlocks cfg i fuel, ∃ q : ℚ,
          ev.percent = q / (totalFilesM cfg : ℚ) * 100 ∧
          (i : ℚ) < q ∧ q ≤ (i : ℚ) + (fuel : ℚ)) ∧
      List.Pairwise (fun a b : PushedEvent => a.percent ≤ b.percent)
        (mBlocks cfg i fuel) := by
  have hn : 0 < totalFilesM cfg := totalFilesM_pos cfg
  have hblk : ∀ j : ℕ, (∀ ev ∈ mFileBlock cfg j, ∃ q : ℚ,
      ev.percent = q / (totalFilesM cfg : ℚ) * 100 ∧
      (j : ℚ) < q ∧ q ≤ (j : ℚ) + 1) ∧
      List.Pairwise (fun a b : PushedEvent => a.percent ≤ b.percent) (mFileBlock cfg j) := by
    intro j
    unfold mFileBlock
    by_cases hf : isPartialFailM cfg j
    · simp [hf]
    · simp only [hf, Bool.false_eq_true, if_false]
      by_cases he : enableIntraM cfg
      · simp only [he, if_true]
        rcases Nat.eq_zero_or_pos (eventsPerFileM cfg j) with hz | hpos
        · simp [hz]
        · have he' : (0 : ℚ) < ((eventsPerFileM cfg j : ℕ) : ℚ) := by exact_mod_cast hpos
          constructor
          · intro ev hev
            obtain ⟨c, hc, rfl⟩ := List.mem_map.mp hev
            have hc' : c < eventsPerFileM cfg j := List.mem_range.mp hc
            refine ⟨(j : ℚ) + ((c : ℚ) + 1) / ((eventsPerFileM cfg j : ℕ) : ℚ), rfl, ?_, ?_⟩
            · have : (0 : ℚ) < ((c : ℚ) + 1) / ((eventsPerFileM cfg j : ℕ) : ℚ) := by
                positivity
              linarith
            · have h1 : (c : ℚ) + 1 ≤ ((eventsPerFileM cfg j : ℕ) : ℚ) := by
                exact_mod_cast Nat.succ_le_of_lt hc'
              have : ((c : ℚ) + 1) / ((eventsPerFileM cfg j : ℕ) : ℚ) ≤ 1 := by
                rw [div_le_one he']
                exact h1
              linarith
          · refine List.Pairwise.map _ ?_ (List.pairwise_lt_range (eventsPerFileM cfg j))
            intro a b hab
            simp only [mkChunkEvent, calculateOverallProgress, mFileProg]
            refine pct_le_pct hn ?_
            have hab' : ((a : ℚ) + 1) / ((eventsPerFileM cfg j : ℕ) : ℚ) ≤
                ((b : ℚ) + 1) / ((eventsPerFileM cfg j : ℕ) : ℚ) := by
              rw [div_le_div_iff_of_pos_right he']
              have : (a : ℚ) < (b : ℚ) := by exact_mod_cast hab
              linarith
            linarith
      · simp only [he, Bool.false_eq_true, if_false]
        refine ⟨?_, List.pairwise_singleton _ _⟩
        intro ev hev
        rw [List.mem_singleton] at hev
        subst hev
        exact ⟨(j : ℚ) + 1, rfl, by linarith, le_refl _⟩
  intro fuel
  induction fuel with
  | zero => intro i; simp [mBlocks]
  | succ fuel ih =>
    intro i
    obtain ⟨ihm, ihp⟩ := ih (i + 1)
    obtain ⟨hbm, hbp⟩ := hblk i
    rw [mBlocks]
    constructor
    · intro ev hev
      rcases List.mem_append.mp hev with h | h
      · obtain ⟨q, hq, h1, h2⟩ := hbm ev h
        exact ⟨q, hq, h1, by push_cast; linarith⟩
      · obtain ⟨q, hq, h1, h2⟩ := ihm ev h
        refine ⟨q, hq, ?_, ?_⟩ <;> push_cast at h1 h2 ⊢ <;> linarith
    · rw [List.pairwise_append]
      refine ⟨hbp, ihp, ?_⟩
      intro x hx y hy
      obtain ⟨qx, hqx, _, hx2⟩ := hbm x hx
      obtain ⟨qy, hqy, hy1, _⟩ := ihm y hy
      rw [hqx, hqy]
      refine pct_le_pct hn ?_
      push_cast at hx2 hy1 ⊢
      linarith

/-- Every event of an uncancelled generator run has percent at most 100 (at
most `fileCount/fileCount * 100`). -/
theorem genBlocks_percent_le_100 (cfg : GenCfg) (hn : 0 < cfg.scenario.fileCount) :
    ∀ ev ∈ genBlocks cfg 0 cfg.scenario.fileCount, ev.percent ≤ 100 := by
  intro ev hev
  obtain ⟨q, hq, _, h2⟩ := (genBlocks_sorted cfg hn cfg.scenario.fileCount 0).1 ev hev
  have hn' : (0 : ℚ) < (cfg.scenario.fileCount : ℚ) := by exact_mod_cast hn
  rw [hq]
  calc q / (cfg.scenario.fileCount : ℚ) * 100
      ≤ (cfg.scenario.fileCount : ℚ) / (cfg.scenario.fileCount : ℚ) * 100 :=
        pct_le_pct hn (by push_cast at h2 ⊢; linarith)
    _ = 100 := by rw [div_self (ne_of_gt hn')]; norm_num

/-- Claim C2: for every run without cancellation — any configuration, any
failing file indices — the recorded percent sequence is monotonically
non-decreasing: consecutive events `e[i], e[i+1]` satisfy
`e[i].percent ≤ e[i+1].percent`, both for the generator's `emittedEvents`
and for the `move_files` mock's recorded events. -/
theorem claim_C2 :
    (∀ cfg : GenCfg,
        List.Chain' (fun a b : GenEvent => a.percent ≤ b.percent)
          (genSimulate cfg none).emittedEvents) ∧
    (∀ cfg : MocksCfg,
        List.Chain' (fun a b : PushedEvent => a.percent ≤ b.percent)
          (moveFiles cfg none).events) := by
  constructor
  · intro cfg
    obtain ⟨h1, _, _⟩ := genFileLoop_none cfg cfg.scenario.fileCount 0 0
    have hev : (genSimulate cfg none).emittedEvents =
        genBlocks cfg 0 cfg.scenario.fileCount := by
      simpa [genSimulate] using h1
    rw [hev]
    rcases Nat.eq_zero_or_pos cfg.scenario.fileCount with hz | hn
    · rw [hz]; simp [genBlocks]
    · exact ((genBlocks_sorted cfg hn cfg.scenario.fileCount 0).2.imp le_of_lt).chain'
  · intro cfg
    have hn : 0 < totalFilesM cfg := totalFilesM_pos cfg
    by_cases hc : isCompleteM cfg
    · rw [moveFiles_complete cfg hc]
      simp
    · obtain ⟨hev, hst⟩ :=
        mFileLoop_none cfg (by simpa using hc) (totalFilesM cfg) 0 0 []
      have hevents : (moveFiles cfg none).events =
          mBlocks cfg 0 (totalFilesM cfg) ++ [⟨100, totalFilesM cfg - 1, none⟩] := by
        simp only [moveFiles, hst]
        rw [hev]
      rw [hevents]
      refine List.Pairwise.chain' ?_
      rw [List.pairwise_append]
      obtain ⟨hm, hp⟩ := mBlocks_sorted cfg (totalFilesM cfg) 0
      refine ⟨hp, List.pairwise_singleton _ _, ?_⟩
      intro x hx y hy
      rw [List.mem_singleton] at hy
      subst hy
      obtain ⟨q, hq, _, h2⟩ := hm x hx
      show x.percent ≤ 100
      have hn' : (0 : ℚ) < (totalFilesM cfg : ℚ) := by exact_mod_cast hn
      rw [hq]
      calc q / (totalFilesM cfg : ℚ) * 100
          ≤ (totalFilesM cfg : ℚ) / (totalFilesM cfg : ℚ) * 100 :=
            pct_le_pct hn (by push_cast at h2 ⊢; linarith)
        _ = 100 := by rw [div_self (ne_of_gt hn')]; norm_num

/-! ## Chunk-count machinery -/

theorem mFileBlock_fileIndex (cfg : MocksCfg) (j : ℕ) :
    ∀ ev ∈ mFileBlock cfg j, ev.fileIndex = j := by
  intro ev hev
  unfold mFileBlock at hev
  split at hev
  · simp at hev
  · split at hev
    · obtain ⟨c, _, rfl⟩ := List.mem_map.mp hev
      rfl
    · rw [List.mem_singleton] at hev
      subst hev
      rfl

theorem mBlocks_fileIndex_lb (cfg : MocksCfg) :
    ∀ fuel i0, ∀ ev ∈ mBlocks cfg i0 fuel, i0 ≤ ev.fileIndex := by
  intro fuel
  induction fuel with
  | zero => intro i0 ev hev; simp [mBlocks] at hev
  | succ fuel ih =>
    intro i0 ev hev
    rw [mBlocks] at hev
    rcases List.mem_append.mp hev with h | h
    · exact le_of_eq (mFileBlock_fileIndex cfg i0 ev h).symm
    · exact le_trans (by omega) (ih (i0 + 1) ev h)

theorem mBlocks_filter_count (cfg : MocksCfg) (he : enableIntraM cfg = true) (i : ℕ)
    (hp : isPartialFailM cfg i = false) :
    ∀ fuel i0, i0 ≤ i → i < i0 + fuel →
      ((mBlocks cfg i0 fuel).filter
          (fun ev => decide (ev.fileIndex = i) && ev.fileProgress.isSome)).length =
        eventsPerFileM cfg i := by
  intro fuel
  induction fuel with
  | zero => intro i0 h1 h2; omega
  | succ fuel ih =>
    intro i0 h1 h2
    rw [mBlocks, List.filter_append, List.length_append]
    rcases Nat.eq_or_lt_of_le h1 with heq | hlt
    · subst heq
      have hself : (mFileBlock cfg i0).filter
          (fun ev => decide (ev.fileIndex = i0) && ev.fileProgress.isSome) =
          mFileBlock cfg i0 := by
        rw [List.filter_eq_self]
        intro ev hev
        have hx : ev.fileIndex = i0 := mFileBlock_fileIndex cfg i0 ev hev
        unfold mFileBlock at hev
        rw [hp, if_neg (by simp), he, if_pos rfl] at hev
        obtain ⟨c, _, rfl⟩ := List.mem_map.mp hev
        simp [hx, mkChunkEvent]
      have hrest : (mBlocks cfg (i0 + 1) fuel).filter
          (fun ev => decide (ev.fileIndex = i0) && ev.fileProgress.isSome) = [] := by
        rw [List.filter_eq_nil_iff]
        intro ev hev
        have := mBlocks_fileIndex_lb cfg fuel (i0 + 1) ev hev
        simp only [Bool.and_eq_true, decide_eq_true_eq]
        intro ⟨hx, _⟩
        omega
      rw [hself, hrest]
      unfold mFileBlock
      rw [hp, if_neg (by simp), he, if_pos rfl]
      simp
    · have hblock : (mFileBlock cfg i0).filter
          (fun ev => decide (ev.fileIndex = i) && ev.fileProgress.isSome) = [] := by
        rw [List.filter_eq_nil_iff]
        intro ev hev
        have := mFileBlock_fileIndex cfg i0 ev hev
        simp only [Bool.and_eq_true, decide_eq_true_eq]
        intro ⟨hx, _⟩
        omega
      rw [hblock]
      simp only [List.length_nil, Nat.zero_add]
      exact ih (i0 + 1) (by omega) (by omega)

/-- Claim C4: in intra-file mode, an uncancelled run without complete
failure emits, for every non-failing file `i`, exactly
`min(maxEventsPerFile, ceil(fileSize / 8192))` intra-file progress events
for that file, where 8192 bytes is the fixed chunk size. -/
theorem claim_C4 :
    ∀ (cfg : MocksCfg) (i : ℕ), enableIntraM cfg = true → isCompleteM cfg = false →
      isPartialFailM cfg i = false → i < totalFilesM cfg →
      ((moveFiles cfg none).events.filter
          (fun ev => decide (ev.fileIndex = i) && ev.fileProgress.isSome)).length =
        min (maxEventsM cfg) (ceilDiv (fileSizeM cfg i) 8192) := by
  intro cfg i he hc hp hi
  obtain ⟨hev, hst⟩ := mFileLoop_none cfg hc (totalFilesM cfg) 0 0 []
  have hevents : (moveFiles cfg none).events =
      mBlocks cfg 0 (totalFilesM cfg) ++ [⟨100, totalFilesM cfg - 1, none⟩] := by
    simp only [moveFiles, hst]
    rw [hev]
  rw [hevents, List.filter_append, List.length_append]
  have hfinal : (List.filter
      (fun ev => decide (ev.fileIndex = i) && ev.fileProgress.isSome)
      [(⟨100, totalFilesM cfg - 1, none⟩ : PushedEvent)]) = [] := by
    simp
  rw [hfinal]
  simp only [List.length_nil, Nat.add_zero]
  rw [mBlocks_filter_count cfg he i hp (totalFilesM cfg) 0 (by omega) (by omega)]
  rfl

/-- Witness for C4: a single 20000-byte file with `maxEventsPerFile = 10`
gets exactly `min 10 (ceil 20000/8192) = 3` intra-file events. -/
theorem claim_C4_witness :
    ((moveFiles cfgMockSmall none).events.filter
        (fun ev => decide (ev.fileIndex = 0) && ev.fileProgress.isSome)).length =
      min (maxEventsM cfgMockSmall) (ceilDiv (fileSizeM cfgMockSmall 0) 8192) :=
  claim_C4 cfgMockSmall 0 rfl rfl rfl (by decide)

/-! ## Legacy (whole-file) mode -/

theorem mFileLoop_legacy (cfg : MocksCfg) (t : Option ℕ) (he : enableIntraM cfg = false) :
    ∀ fuel i s m, ∀ ev ∈ (mFileLoop cfg t fuel i s m).1,
      ev.fileProgress = none ∧
      ev.percent = ((ev.fileIndex : ℚ) + 1) / (totalFilesM cfg : ℚ) * 100 := by
  intro fuel
  induction fuel with
  | zero => intro i s m ev hev; simp [mFileLoop] at hev
  | succ fuel ih =>
    intro i s m ev hev
    cases hf : flagAt t s with
    | true => simp [mFileLoop, hf] at hev
    | false =>
      cases hcomp : isCompleteM cfg with
      | true => simp [mFileLoop, hf, hcomp] at hev
      | false =>
        cases hpart : isPartialFailM cfg i with
        | true =>
          simp only [mFileLoop, hf, hcomp, hpart, Bool.false_eq_true, if_false,
            if_true] at hev
          exact ih (i + 1) s m ev hev
        | false =>
          simp only [mFileLoop, hf, hcomp, hpart, he, Bool.false_eq_true, if_false,
            if_true, List.mem_append, List.mem_singleton] at hev
          rcases hev with h | h
          · subst h
            exact ⟨rfl, rfl⟩
          · exact ih (i + 1) _ _ ev h

/-- Counterexample to C9 as stated: in whole-file mode with two files of
which the first fails, the event emitted for file 1 has percent 100 even
though only one of the two files ever completes — so percent is not
`(filesCompleted / totalFiles) * 100` (which would be 0 or 50 depending on
whether the file being completed is counted). -/
theorem claim_C9_counterexample :
    (moveFiles cfgMockLegacy none).events.head?.map (·.percent) = some 100 ∧
    (moveFiles cfgMockLegacy none).movedFiles.length = 1 ∧
    totalFilesM cfgMockLegacy = 2 ∧
    ¬((1 : ℚ) / 2 * 100 = 100) ∧ ¬((0 : ℚ) / 2 * 100 = 100) := by
  with_unfolding_all decide

/-- Claim C9, corrected: in whole-file emission mode every recorded event
(including the final completion event) has
`percent = ((fileIndex + 1) / totalFiles) * 100` — based on the position of
the current file, which coincides with the count of successfully completed
files only when no earlier file failed — and `fileProgress` is absent. -/
theorem claim_C9_amended :
    ∀ (cfg : MocksCfg) (t : Option ℕ), enableIntraM cfg = false →
      ∀ ev ∈ (moveFiles cfg t).events,
        ev.fileProgress = none ∧
        ev.percent = ((ev.fileIndex : ℚ) + 1) / (totalFilesM cfg : ℚ) * 100 := by
  intro cfg t he ev hev
  have hn : 0 < totalFilesM cfg := totalFilesM_pos cfg
  have hfinal : ((⟨100, totalFilesM cfg - 1, none⟩ : PushedEvent)).fileProgress = none ∧
      ((⟨100, totalFilesM cfg - 1, none⟩ : PushedEvent)).percent =
        ((((⟨100, totalFilesM cfg - 1, none⟩ : PushedEvent)).fileIndex : ℚ) + 1) /
          (totalFilesM cfg : ℚ) * 100 := by
    refine ⟨rfl, ?_⟩
    show (100 : ℚ) = (((totalFilesM cfg - 1 : ℕ) : ℚ) + 1) / (totalFilesM cfg : ℚ) * 100
    rw [Nat.cast_sub (by omega : 1 ≤ totalFilesM cfg)]
    have hne : ((totalFilesM cfg : ℚ)) ≠ 0 := Nat.cast_ne_zero.mpr (by omega)
    field_simp
  unfold moveFiles at hev
  rcases hst : (mFileLoop cfg t (totalFilesM cfg) 0 0 []).2.2.2 with _ | _ | _
  · simp only [hst, List.mem_append, List.mem_singleton] at hev
    rcases hev with h | h
    · exact mFileLoop_legacy cfg t he _ 0 0 [] ev h
    · subst h; exact hfinal
  · simp only [hst] at hev
    exact mFileLoop_legacy cfg t he _ 0 0 [] ev hev
  · simp only [hst] at hev
    exact mFileLoop_legacy cfg t he _ 0 0 [] ev hev

/-- Witness for C9 (amended): the event recorded for file 1 of the legacy
two-file run satisfies the position-based formula. -/
theorem claim_C9_witness :
    (⟨100, 1, none⟩ : PushedEvent).fileProgress = none ∧
    (⟨100, 1, none⟩ : PushedEvent).percent =
      (((⟨100, 1, none⟩ : PushedEvent).fileIndex : ℚ) + 1) /
        (totalFilesM cfgMockLegacy : ℚ) * 100 :=
  claim_C9_amended cfgMockLegacy none rfl ⟨100, 1, none⟩ (by with_unfolding_all decide)

/-! ## Refinement: `simulate` against `generateExpectedProgressEvents` -/

theorem expInner_triples (scenario : SimFileSet) (i : ℕ) :
    ∀ fuel c ts,
      ((expInner scenario 10 i fuel c ts).1).map expTriple =
        ((List.range fuel).map (fun d => mkGenEvent scenario.fileCount i (c + d))).map
          genTriple := by
  intro fuel
  induction fuel with
  | zero => intro c ts; simp [expInner]
  | succ fuel ih =>
    intro c ts
    rw [expInner]
    simp only [List.map_cons, List.range_succ_eq_map, List.map_map]
    rw [List.cons.injEq]
    constructor
    · show expTriple _ = genTriple (mkGenEvent scenario.fileCount i (c + 0))
      simp only [expTriple, genTriple, mkGenEvent, genFileProgress, Nat.add_zero]
      norm_num
    · rw [ih (c + 1) (ts + scenario.progressIntervalMs), List.map_map]
      refine congrArg (fun f => List.map f (List.range fuel)) ?_
      funext d
      simp only [Function.comp, Nat.succ_eq_add_one]
      rw [show c + 1 + d = c + (d + 1) from by omega]

theorem expOuter_triples (cfg : GenCfg) (hf : ∀ j, genFailing cfg j = false) :
    ∀ fuel i ts,
      ((expOuter cfg.scenario 10 fuel i ts).1).map expTriple =
        (genBlocks cfg i fuel).map genTriple := by
  intro fuel
  induction fuel with
  | zero => intro i ts; simp [expOuter, genBlocks]
  | succ fuel ih =>
    intro i ts
    rw [expOuter, genBlocks]
    simp only [List.map_append]
    rw [expInner_triples cfg.scenario i 10 0 ts, ih (i + 1) _]
    refine congrArg (· ++ _) ?_
    unfold genBlock
    rw [hf i, if_neg (by simp)]
    simp only [Nat.zero_add]

theorem genBlocks_noFail_length (cfg : GenCfg) (hf : ∀ j, genFailing cfg j = false) :
    ∀ fuel i, (genBlocks cfg i fuel).length = fuel * 10 := by
  intro fuel
  induction fuel with
  | zero => intro i; simp [genBlocks]
  | succ fuel ih =>
    intro i
    rw [genBlocks, List.length_append, ih (i + 1)]
    unfold genBlock
    rw [hf i, if_neg (by simp)]
    simp [Nat.succ_mul]
    omega

/-- Claim C10: for a scenario with at least one file, no failure
configuration and no abort, the `(fileIndex, fileProgress, percent)` triples
recorded by `simulate()` coincide position by position with those of the
pure reference sequence `generateExpectedProgressEvents(scenario, 10)`, and
their common length is `fileCount * 10`. -/
theorem claim_C10 :
    ∀ cfg : GenCfg, cfg.failureConfig = none → 1 ≤ cfg.scenario.fileCount →
      (genSimulate cfg none).emittedEvents.map genTriple =
        (generateExpectedProgressEvents cfg.scenario 10).map expTriple ∧
      (genSimulate cfg none).emittedEvents.length = cfg.scenario.fileCount * 10 := by
  intro cfg hnone _
  have hf : ∀ j, genFailing cfg j = false := by
    intro j
    simp [genFailing, hnone]
  obtain ⟨h1, _, _⟩ := genFileLoop_none cfg cfg.scenario.fileCount 0 0
  have hev : (genSimulate cfg none).emittedEvents =
      genBlocks cfg 0 cfg.scenario.fileCount := by
    simpa [genSimulate] using h1
  rw [hev]
  refine ⟨?_, genBlocks_noFail_length cfg hf cfg.scenario.fileCount 0⟩
  rw [generateExpectedProgressEvents, expOuter_triples cfg hf cfg.scenario.fileCount 0 0]

/-- Witness for C10: the two-file failure-free scenario. -/
theorem claim_C10_witness :
    (genSimulate cfgGenTwo none).emittedEvents.map genTriple =
      (generateExpectedProgressEvents cfgGenTwo.scenario 10).map expTriple ∧
    (genSimulate cfgGenTwo none).emittedEvents.length =
      cfgGenTwo.scenario.fileCount * 10 :=
  claim_C10 cfgGenTwo rfl (by decide)

/-! ## Cancellation: aborted runs truncate the uncancelled run -/

theorem genChunkLoop_take (n : ℕ) (t : ℕ) (i : ℕ) :
    ∀ fuel s k, genChunkLoop n (some t) i fuel s k =
      (genChunkLoop n none i fuel s k).take (t - k) := by
  intro fuel
  induction fuel with
  | zero => intro s k; simp [genChunkLoop]
  | succ fuel ih =>
    intro s k
    by_cases h : t ≤ k
    · have hfl : flagAt (some t) k = true := by simp [flagAt, h]
      have h0 : t - k = 0 := by omega
      simp [genChunkLoop, hfl, h0]
    · have hfl : flagAt (some t) k = false := by
        simp only [flagAt, decide_eq_false_iff_not]
        omega
      have hm : t - k = (t - (k + 1)) + 1 := by omega
      simp only [genChunkLoop, hfl, flagAt_none, Bool.false_eq_true, if_false]
      rw [ih (s + 1) (k + 1), hm, List.take_succ_cons]

theorem genFileLoop_kEnd (cfg : GenCfg) (t' : Option ℕ) :
    ∀ fuel i k, (genFileLoop cfg t' fuel i k).kEnd =
      k + (genFileLoop cfg t' fuel i k).events.length := by
  intro fuel
  induction fuel with
  | zero => intro i k; simp [genFileLoop]
  | succ fuel ih =>
    intro i k
    cases hf : flagAt t' k with
    | true => simp [genFileLoop, hf]
    | false =>
      cases hfail : genFailing cfg i with
      | true =>
        simp only [genFileLoop, hf, hfail, Bool.false_eq_true, if_false, if_true]
        exact ih (i + 1) k
      | false =>
        simp only [genFileLoop, hf, hfail, Bool.false_eq_true, if_false, if_true,
          List.length_append]
        rw [ih (i + 1) _]
        omega

theorem genFileLoop_events_take (cfg : GenCfg) (t : ℕ) :
    ∀ fuel i k, (genFileLoop cfg (some t) fuel i k).events =
      (genBlocks cfg i fuel).take (t - k) := by
  intro fuel
  induction fuel with
  | zero => intro i k; simp [genFileLoop, genBlocks]
  | succ fuel ih =>
    intro i k
    by_cases h : t ≤ k
    · have hfl : flagAt (some t) k = true := by simp [flagAt, h]
      have h0 : t - k = 0 := by omega
      simp [genFileLoop, hfl, h0]
    · have hfl : flagAt (some t) k = false := by
        simp only [flagAt, decide_eq_false_iff_not]
        omega
      cases hfail : genFailing cfg i with
      | true =>
        simp only [genFileLoop, hfl, hfail, Bool.false_eq_true, if_false, if_true]
        rw [ih (i + 1) k, genBlocks]
        unfold genBlock
        rw [hfail, if_pos rfl]
        simp
      | false =>
        simp only [genFileLoop, hfl, hfail, Bool.false_eq_true, if_false, if_true]
        have hblock : genBlock cfg i =
            genChunkLoop cfg.scenario.fileCount none i 10 0 k := by
          unfold genBlock
          rw [hfail, if_neg (by simp), genChunkLoop_none]
          simp
        have hlen10 : (genChunkLoop cfg.scenario.fileCount none i 10 0 k).length = 10 :=
          genChunkLoop_none_length _ _ _ _ _
        have hlenSome : (genChunkLoop cfg.scenario.fileCount (some t) i 10 0 k).length =
            min (t - k) 10 := by
          rw [genChunkLoop_take, List.length_take, hlen10]
        rw [genBlocks, List.take_append_eq_append_take]
        rw [ih, hlenSome, hblock, hlen10,
          genChunkLoop_take cfg.scenario.fileCount t i 10 0 k,
          show t - (k + min (t - k) 10) = t - k - 10 from by omega]

theorem genFileLoop_completed_take (cfg : GenCfg) (t : ℕ) :
    ∀ fuel i k, ∃ m, (genFileLoop cfg (some t) fuel i k).completed =
      (genCompletedSpec cfg i fuel).take m := by
  intro fuel
  induction fuel with
  | zero => intro i k; exact ⟨0, by simp [genFileLoop]⟩
  | succ fuel ih =>
    intro i k
    cases hf : flagAt (some t) k with
    | true => exact ⟨0, by simp [genFileLoop, hf]⟩
    | false =>
      cases hfail : genFailing cfg i with
      | true =>
        obtain ⟨m, hm⟩ := ih (i + 1) k
        refine ⟨m, ?_⟩
        simp only [genFileLoop, hf, hfail, Bool.false_eq_true, if_false, if_true]
        rw [hm, genCompletedSpec_succ, hfail, if_pos rfl]
      | false =>
        obtain ⟨m, hm⟩ :=
          ih (i + 1) (k + (genChunkLoop cfg.scenario.fileCount (some t) i 10 0 k).length)
        refine ⟨m + 1, ?_⟩
        simp only [genFileLoop, hf, hfail, Bool.false_eq_true, if_false, if_true]
        rw [hm, genCompletedSpec_succ, hfail, if_neg (by simp), List.take_succ_cons]

/-- Counterexample to C6 as stated: aborting a single-file run during the
sleep that follows the final sub-step event (schedule `some 10`) produces a
cancelled run (`success = false`, completion callbacks suppressed) whose
last recorded event has percent exactly 100, not strictly less. -/
theorem claim_C6_counterexample :
    (genSimulate cfgGenOne (some 10)).abortedAtEnd = true ∧
    (genSimulate cfgGenOne (some 10)).success = false ∧
    (genSimulate cfgGenOne (some 10)).completionSignalled = false ∧
    (genSimulate cfgGenOne (some 10)).emittedEvents.getLast?.map (·.percent) =
      some 100 := by
  with_unfolding_all decide

/-- Claim C6, corrected: if the cancellation flag is set before the final
intra-file event of the run would be emitted (schedule `some t` with `t`
less than the uncancelled run's event count), then the aborted run's
recorded events are exactly the first `t` events of the uncancelled run
(nothing is appended after the flag is observed, and nothing is rolled
back), every recorded percent is strictly below 100, the already-completed
files are a prefix of the uncancelled run's completed files, and the run
reports cancellation (`success = false`).  If abort is requested only after
the final event was emitted (during the final sleep), the run still reports
cancellation but its last recorded percent is 100 — see the
counterexample. -/
theorem claim_C6_amended :
    ∀ (cfg : GenCfg) (t : ℕ), t < (genSimulate cfg none).emittedEvents.length →
      (genSimulate cfg (some t)).emittedEvents =
        (genSimulate cfg none).emittedEvents.take t ∧
      (genSimulate cfg (some t)).emittedEvents.length = t ∧
      (∀ ev ∈ (genSimulate cfg (some t)).emittedEvents, ev.percent < 100) ∧
      (genSimulate cfg (some t)).completedFiles =
        (genSimulate cfg none).completedFiles.take
          (genSimulate cfg (some t)).completedFiles.length ∧
      (genSimulate cfg (some t)).abortedAtEnd = true ∧
      (genSimulate cfg (some t)).success = false := by
  intro cfg t ht
  obtain ⟨hev0, hcomp0, _⟩ := genFileLoop_none cfg cfg.scenario.fileCount 0 0
  have hnoneEv : (genSimulate cfg none).emittedEvents =
      genBlocks cfg 0 cfg.scenario.fileCount := by
    simpa [genSimulate] using hev0
  have hsomeEv : (genSimulate cfg (some t)).emittedEvents =
      (genBlocks cfg 0 cfg.scenario.fileCount).take t := by
    have := genFileLoop_events_take cfg t cfg.scenario.fileCount 0 0
    simpa [genSimulate] using this
  rw [hnoneEv] at ht
  have hn : 0 < cfg.scenario.fileCount := by
    by_contra hz
    have : cfg.scenario.fileCount = 0 := by omega
    rw [this] at ht
    simp [genBlocks] at ht
  have htake : (genSimulate cfg (some t)).emittedEvents =
      (genSimulate cfg none).emittedEvents.take t := by
    rw [hsomeEv, hnoneEv]
  have hlen : (genSimulate cfg (some t)).emittedEvents.length = t := by
    rw [hsomeEv, List.length_take]
    omega
  refine ⟨htake, hlen, ?_, ?_, ?_, ?_⟩
  · -- every aborted-run percent is strictly below 100
    intro ev hev
    rw [hsomeEv] at hev
    set L := genBlocks cfg 0 cfg.scenario.fileCount with hL
    have hp : List.Pairwise (fun a b : GenEvent => a.percent < b.percent) L :=
      (genBlocks_sorted cfg hn cfg.scenario.fileCount 0).2
    have hp' : List.Pairwise (fun a b : GenEvent => a.percent < b.percent)
        (L.take t ++ L.drop t) := by
      rw [List.take_append_drop]
      exact hp
    obtain ⟨-, -, hcross⟩ := List.pairwise_append.mp hp'
    have hdropne : L.drop t ≠ [] := by
      rw [ne_eq, List.drop_eq_nil_iff]
      omega
    obtain ⟨y, ys, hdrop⟩ := List.exists_cons_of_ne_nil hdropne
    have hyL : y ∈ L := List.drop_subset t L (by rw [hdrop]; exact List.mem_cons_self y ys)
    have hy100 : y.percent ≤ 100 := genBlocks_percent_le_100 cfg hn y hyL
    have := hcross ev hev y (by rw [hdrop]; exact List.mem_cons_self y ys)
    linarith
  · -- completed files: a prefix of the uncancelled run's completed files
    obtain ⟨m, hm⟩ := genFileLoop_completed_take cfg t cfg.scenario.fileCount 0 0
    have hsomeC : (genSimulate cfg (some t)).completedFiles =
        (genCompletedSpec cfg 0 cfg.scenario.fileCount).take m := by
      simpa [genSimulate] using hm
    have hnoneC : (genSimulate cfg none).completedFiles =
        genCompletedSpec cfg 0 cfg.scenario.fileCount := by
      simpa [genSimulate] using hcomp0
    rw [hsomeC, hnoneC, List.length_take]
    refine List.take_eq_take.mpr ?_
    omega
  · -- the final flag read observes the cancellation
    show flagAt (some t) (genFileLoop cfg (some t) cfg.scenario.fileCount 0 0).kEnd = true
    rw [genFileLoop_kEnd]
    have : (genFileLoop cfg (some t) cfg.scenario.fileCount 0 0).events.length = t := by
      simpa [genSimulate] using hlen
    rw [this]
    simp [flagAt]
  · -- hence success is false
    have hab : flagAt (some t) (genFileLoop cfg (some t) cfg.scenario.fileCount 0 0).kEnd =
        true := by
      rw [genFileLoop_kEnd]
      have : (genFileLoop cfg (some t) cfg.scenario.fileCount 0 0).events.length = t := by
        simpa [genSimulate] using hlen
      rw [this]
      simp [flagAt]
    simp [genSimulate, hab]

/-- Witness for C6 (amended): aborting the single-file run after three
events (`t = 3 < 10`). -/
theorem claim_C6_witness :
    (genSimulate cfgGenOne (some 3)).emittedEvents =
      (genSimulate cfgGenOne none).emittedEvents.take 3 ∧
    (genSimulate cfgGenOne (some 3)).emittedEvents.length = 3 ∧
    (∀ ev ∈ (genSimulate cfgGenOne (some 3)).emittedEvents, ev.percent < 100) ∧
    (genSimulate cfgGenOne (some 3)).completedFiles =
      (genSimulate cfgGenOne none).completedFiles.take
        (genSimulate cfgGenOne (some 3)).completedFiles.length ∧
    (genSimulate cfgGenOne (some 3)).abortedAtEnd = true ∧
    (genSimulate cfgGenOne (some 3)).success = false :=
  claim_C6_amended cfgGenOne 3 (by with_unfolding_all decide)

end Bucket
